import Mathlib

/-!
Verification of the optimizing compiler driver (`optimizing_compiler.cc`).

The definitions below are a shallow embedding of the driver's control flow:

* the dependency-aware optimization-pass loop (`RunOptimizations`),
* the linker-patch collection and sorting (`EmitAndSortLinkerPatches`),
* the thunk-deduplication loop of `Emit`,
* the eligibility-filtering pipeline of `TryCompile` and `TryCompileIntrinsic`,
* the AOT orchestration in `Compile` and `JniCompile`,
* the JIT reserve/commit/free protocol of `JitCompile`,
* the verbosity predicate `PassObserver::IsVerboseMethod`.

External collaborators (pass bodies, the code generator, the JIT code cache,
the graph builder) are represented by oracle parameters: their results are
inputs of the embedded functions, while every decision made by the driver
itself is modelled faithfully from the source.
-/

namespace Art

/-! ### Pass registry and pipeline orchestrator (`RunOptimizations`) -/

/-- Pass identities (`OptimizationPass` enum values) are modelled as naturals;
`kNone` is the sentinel "always true" identity used by the bitset. -/
def kNone : Nat := 0

/-- One entry of an `OptimizationDef` table: the pass identity and the
identity this pass depends on (`OptDef(pass, name, depends_on)`).  The display
name does not influence control flow and is omitted. -/
structure OptimizationDef where
  pass : Nat
  dependsOn : Nat
deriving DecidableEq

/-- The loop state of `RunOptimizations`: the `pass_changes` bitset, the
overall `change` flag, and (as instrumentation of the observable behaviour)
the list of loop indices whose pass was actually executed. -/
structure PassState where
  passChanges : Nat → Bool
  change : Bool
  executed : List Nat

/-- Initial loop state: `pass_changes[kNone] = true`, everything else false,
no pass executed yet. -/
def initPassState : PassState :=
  { passChanges := fun p => decide (p = kNone)
    change := false
    executed := [] }

/-- One iteration of the `RunOptimizations` loop at index `i` with
definition `d`; `run i` is the oracle for `optimizations[i]->Run()`. -/
def runOptStep (run : Nat → Bool) (st : PassState) (i : Nat) (d : OptimizationDef) : PassState :=
  if st.passChanges d.dependsOn then
    let passChange := run i
    { passChanges := fun p => if p = d.pass then passChange else st.passChanges p
      change := st.change || passChange
      executed := st.executed ++ [i] }
  else
    { passChanges := fun p => if p = d.pass then false else st.passChanges p
      change := st.change
      executed := st.executed }

/-- The `RunOptimizations` loop over the remaining definitions, starting at
loop index `i`. -/
def runOptimizationsFrom (run : Nat → Bool) : List OptimizationDef → Nat → PassState → PassState
  | [], _, st => st
  | d :: ds, i, st => runOptimizationsFrom run ds (i + 1) (runOptStep run st i d)

/-- Final loop state of `RunOptimizations` on a definition table. -/
def runOptimizationsState (run : Nat → Bool) (defs : List OptimizationDef) : PassState :=
  runOptimizationsFrom run defs 0 initPassState

/-- Return value of `RunOptimizations`: did any pass change the graph. -/
def runOptimizations (run : Nat → Bool) (defs : List OptimizationDef) : Bool :=
  (runOptimizationsState run defs).change

/-- Loop state just before iteration `i` (after processing the first `i`
definitions). -/
def stateAt (run : Nat → Bool) (defs : List OptimizationDef) (i : Nat) : PassState :=
  runOptimizationsFrom run (defs.take i) 0 initPassState

theorem runOptimizationsFrom_append (run : Nat → Bool) (l1 l2 : List OptimizationDef)
    (i0 : Nat) (st : PassState) :
    runOptimizationsFrom run (l1 ++ l2) i0 st =
      runOptimizationsFrom run l2 (i0 + l1.length) (runOptimizationsFrom run l1 i0 st) := by
  induction l1 generalizing i0 st with
  | nil => simp [runOptimizationsFrom]
  | cons d ds ih =>
    show runOptimizationsFrom run (ds ++ l2) (i0 + 1) (runOptStep run st i0 d) = _
    rw [ih, List.length_cons]
    have harith : i0 + 1 + ds.length = i0 + (ds.length + 1) := by omega
    rw [harith]
    rfl

theorem stateAt_succ (run : Nat → Bool) (defs : List OptimizationDef) (i : Nat)
    (h : i < defs.length) :
    stateAt run defs (i + 1) = runOptStep run (stateAt run defs i) i defs[i] := by
  have htake : defs.take (i + 1) = defs.take i ++ [defs[i]] := by
    rw [← List.take_concat_get defs i h, List.concat_eq_append]
  have hlen : (defs.take i).length = i := by
    rw [List.length_take]; omega
  rw [stateAt, htake, runOptimizationsFrom_append, hlen, Nat.zero_add]
  rfl

theorem runOptimizationsState_eq_from (run : Nat → Bool) (defs : List OptimizationDef)
    (i : Nat) (h : i ≤ defs.length) :
    runOptimizationsState run defs =
      runOptimizationsFrom run (defs.drop i) i (stateAt run defs i) := by
  have hlen : (defs.take i).length = i := by
    rw [List.length_take]; omega
  conv_lhs => rw [runOptimizationsState, ← List.take_append_drop i defs]
  rw [runOptimizationsFrom_append, hlen, Nat.zero_add, stateAt]

theorem executed_runOptStep_subset (run : Nat → Bool) (st : PassState) (i : Nat)
    (d : OptimizationDef) (j : Nat) (hj : j ∈ (runOptStep run st i d).executed) :
    j ∈ st.executed ∨ j = i := by
  rw [runOptStep] at hj
  by_cases hdep : st.passChanges d.dependsOn
  · simp only [if_pos hdep, List.mem_append, List.mem_singleton] at hj
    exact hj
  · simp only [if_neg hdep] at hj
    exact Or.inl hj

theorem executed_bounded (run : Nat → Bool) (ds : List OptimizationDef) :
    ∀ (i0 : Nat) (st : PassState), (∀ j ∈ st.executed, j < i0) →
      ∀ j ∈ (runOptimizationsFrom run ds i0 st).executed, j < i0 + ds.length := by
  induction ds with
  | nil =>
    intro i0 st hst j hj
    simpa using hst j hj
  | cons d ds ih =>
    intro i0 st hst j hj
    have hstep : ∀ j ∈ (runOptStep run st i0 d).executed, j < i0 + 1 := by
      intro j hj
      rcases executed_runOptStep_subset run st i0 d j hj with hmem | rfl
      · exact Nat.lt_succ_of_lt (hst j hmem)
      · exact Nat.lt_succ_self _
    have := ih (i0 + 1) (runOptStep run st i0 d) hstep j hj
    simpa [Nat.add_assoc, Nat.add_comm 1 ds.length] using this

theorem executed_origin (run : Nat → Bool) (ds : List OptimizationDef) :
    ∀ (i0 : Nat) (st : PassState) (j : Nat),
      j ∈ (runOptimizationsFrom run ds i0 st).executed → j ∈ st.executed ∨ i0 ≤ j := by
  induction ds with
  | nil =>
    intro i0 st j hj
    exact Or.inl hj
  | cons d ds ih =>
    intro i0 st j hj
    rcases ih (i0 + 1) (runOptStep run st i0 d) j hj with hmem | hle
    · rcases executed_runOptStep_subset run st i0 d j hmem with hmem' | rfl
      · exact Or.inl hmem'
      · exact Or.inr (Nat.le_refl _)
    · exact Or.inr (Nat.le_of_succ_le hle)

theorem executed_monotone (run : Nat → Bool) (ds : List OptimizationDef) :
    ∀ (i0 : Nat) (st : PassState) (j : Nat),
      j ∈ st.executed → j ∈ (runOptimizationsFrom run ds i0 st).executed := by
  induction ds with
  | nil =>
    intro i0 st j hj
    exact hj
  | cons d ds ih =>
    intro i0 st j hj
    apply ih
    rw [runOptStep]
    by_cases hdep : st.passChanges d.dependsOn
    · simp only [if_pos hdep, List.mem_append]
      exact Or.inl hj
    · simpa only [if_neg hdep] using hj

theorem stateAt_executed_lt (run : Nat → Bool) (defs : List OptimizationDef) (i : Nat)
    (h : i ≤ defs.length) :
    ∀ j ∈ (stateAt run defs i).executed, j < i := by
  intro j hj
  have hlen : (defs.take i).length = i := by
    rw [List.length_take]; omega
  have := executed_bounded run (defs.take i) 0 initPassState
    (by intro j hj; simp [initPassState] at hj) j hj
  omega

/-- C2: in the `RunOptimizations` loop, a definition whose `depends_on`
identity has a false `pass_changes` bitset entry at its iteration is not
executed, and its own identity's bitset entry is recorded as false. -/
theorem runOptimizations_dep_false_skips (run : Nat → Bool) (defs : List OptimizationDef)
    (i : Nat) (h : i < defs.length)
    (hdep : (stateAt run defs i).passChanges (defs[i].dependsOn) = false) :
    i ∉ (runOptimizationsState run defs).executed ∧
      (stateAt run defs (i + 1)).passChanges (defs[i].pass) = false := by
  have hstep := stateAt_succ run defs i h
  have hdep' : ¬ ((stateAt run defs i).passChanges (defs[i].dependsOn) = true) := by
    simp [hdep]
  constructor
  · intro hmem
    rw [runOptimizationsState_eq_from run defs (i + 1) h] at hmem
    rcases executed_origin run (defs.drop (i + 1)) (i + 1) (stateAt run defs (i + 1)) i hmem
      with hmem' | hle
    · rw [hstep, runOptStep, if_neg hdep'] at hmem'
      exact absurd (stateAt_executed_lt run defs i (Nat.le_of_lt h) i hmem')
        (Nat.lt_irrefl i)
    · omega
  · rw [hstep, runOptStep, if_neg hdep']
    simp

/-- C2 witness: with table `[{pass 1, depends_on kNone}, {pass 2, depends_on 1}]`
and a first pass that reports no change, the second definition's dependency
entry is false, the second pass is skipped, and its own entry becomes false. -/
theorem runOptimizations_dep_false_skips_witness :
    (stateAt (fun _ => false) [⟨1, 0⟩, ⟨2, 1⟩] 1).passChanges
        ((([⟨1, 0⟩, ⟨2, 1⟩] : List OptimizationDef)[1]).dependsOn) = false ∧
      (1 ∉ (runOptimizationsState (fun _ => false) [⟨1, 0⟩, ⟨2, 1⟩]).executed ∧
        (stateAt (fun _ => false) [⟨1, 0⟩, ⟨2, 1⟩] 2).passChanges
          ((([⟨1, 0⟩, ⟨2, 1⟩] : List OptimizationDef)[1]).pass) = false) :=
  ⟨by decide,
    runOptimizations_dep_false_skips (fun _ => false) [⟨1, 0⟩, ⟨2, 1⟩] 1
      (by decide) (by decide)⟩

theorem passChanges_kNone_invariant (run : Nat → Bool) (ds : List OptimizationDef) :
    ∀ (i0 : Nat) (st : PassState), st.passChanges kNone = true →
      (∀ d ∈ ds, d.pass ≠ kNone) →
      (runOptimizationsFrom run ds i0 st).passChanges kNone = true := by
  induction ds with
  | nil =>
    intro i0 st hst _
    exact hst
  | cons d ds ih =>
    intro i0 st hst hproviso
    apply ih (i0 + 1)
    · have hd : d.pass ≠ kNone := hproviso d (List.mem_cons_self d ds)
      rw [runOptStep]
      by_cases hdep : st.passChanges d.dependsOn
      · simp only [if_pos hdep]
        simpa [if_neg (Ne.symm hd)] using hst
      · simp only [if_neg hdep]
        simpa [if_neg (Ne.symm hd)] using hst
    · intro d' hd'
      exact hproviso d' (List.mem_cons_of_mem d hd')

/-- C3: the sentinel `kNone` bitset entry is initialized to true and remains
true at every iteration of the pass loop (provided no definition uses the
sentinel as its own pass identity), so a definition whose `depends_on` is
the sentinel is executed regardless of prior history. -/
theorem runOptimizations_sentinel_always (run : Nat → Bool) (defs : List OptimizationDef)
    (hproviso : ∀ d ∈ defs, d.pass ≠ kNone) :
    initPassState.passChanges kNone = true ∧
      (∀ i, (stateAt run defs i).passChanges kNone = true) ∧
      (∀ i, (h : i < defs.length) → (defs[i].dependsOn = kNone) →
        i ∈ (runOptimizationsState run defs).executed) := by
  have hinit : initPassState.passChanges kNone = true := by simp [initPassState]
  have hstateAt : ∀ i, (stateAt run defs i).passChanges kNone = true := by
    intro i
    apply passChanges_kNone_invariant run (defs.take i) 0 initPassState hinit
    intro d hd
    exact hproviso d (List.mem_of_mem_take hd)
  refine ⟨hinit, hstateAt, ?_⟩
  intro i h hdep
  have hdeptrue : (stateAt run defs i).passChanges (defs[i].dependsOn) = true := by
    rw [hdep]; exact hstateAt i
  have hstep := stateAt_succ run defs i h
  have hmem : i ∈ (stateAt run defs (i + 1)).executed := by
    rw [hstep, runOptStep, if_pos hdeptrue]
    simp
  rw [runOptimizationsState_eq_from run defs (i + 1) h]
  exact executed_monotone run (defs.drop (i + 1)) (i + 1) (stateAt run defs (i + 1)) i hmem

/-- C3 witness: with table `[{pass 1, depends_on kNone}, {pass 2, depends_on kNone}]`
and no pass reporting a change, the sentinel entry stays true and both
definitions are executed. -/
theorem runOptimizations_sentinel_always_witness :
    initPassState.passChanges kNone = true ∧
      (stateAt (fun _ => false) [⟨1, 0⟩, ⟨2, 0⟩] 2).passChanges kNone = true ∧
      1 ∈ (runOptimizationsState (fun _ => false) [⟨1, 0⟩, ⟨2, 0⟩]).executed :=
  ⟨(runOptimizations_sentinel_always (fun _ => false) [⟨1, 0⟩, ⟨2, 0⟩] (by decide)).1,
    (runOptimizations_sentinel_always (fun _ => false) [⟨1, 0⟩, ⟨2, 0⟩] (by decide)).2.1 2,
    (runOptimizations_sentinel_always (fun _ => false) [⟨1, 0⟩, ⟨2, 0⟩] (by decide)).2.2 1
      (by decide) (by decide)⟩

/-! ### Code emission and patch resolution (`EmitAndSortLinkerPatches`, `Emit`) -/

/-- A relocation patch: the in-code literal offset it patches, plus an
abstract identifier standing for its kind and target data. -/
structure LinkerPatch where
  literalOffset : Nat
  patchId : Nat
deriving DecidableEq

/-- The ordering used by the `std::sort` call in `EmitAndSortLinkerPatches`
(comparator `lhs.LiteralOffset() < rhs.LiteralOffset()`): a strict weak order
whose induced sortedness guarantee is non-strict `≤` on literal offsets. -/
def patchOffsetLE (a b : LinkerPatch) : Prop :=
  a.literalOffset ≤ b.literalOffset

instance : DecidableRel patchOffsetLE :=
  fun a b => Nat.decLe a.literalOffset b.literalOffset

instance : IsTotal LinkerPatch patchOffsetLE :=
  ⟨fun a b => Nat.le_total a.literalOffset b.literalOffset⟩

instance : IsTrans LinkerPatch patchOffsetLE :=
  ⟨fun _ _ _ => Nat.le_trans⟩

/-- `EmitAndSortLinkerPatches`: collect the patches emitted by the code
generator (`emitted`, an oracle input) and sort them by literal offset. -/
def emitAndSortLinkerPatches (emitted : List LinkerPatch) : List LinkerPatch :=
  emitted.insertionSort patchOffsetLE

/-- C4 amended: the patch list assembled by `EmitAndSortLinkerPatches` is
sorted in non-decreasing (not necessarily strictly increasing) order of
literal offset: every pair of consecutive patches satisfies `≤`. -/
theorem emitAndSortLinkerPatches_sorted (emitted : List LinkerPatch) :
    List.Chain' (fun a b => a.literalOffset ≤ b.literalOffset)
      (emitAndSortLinkerPatches emitted) :=
  (List.sorted_insertionSort patchOffsetLE emitted).chain'

/-- C4 counterexample: two emitted patches with equal literal offsets yield a
sorted list whose consecutive offsets are not strictly increasing, so the
output is not always sorted strictly ascending. -/
theorem emitAndSortLinkerPatches_not_strict :
    ¬ List.Chain' (fun a b => a.literalOffset < b.literalOffset)
      (emitAndSortLinkerPatches [⟨7, 1⟩, ⟨7, 2⟩]) := by
  have hsort : emitAndSortLinkerPatches [⟨7, 1⟩, ⟨7, 2⟩] = [⟨7, 1⟩, ⟨7, 2⟩] := rfl
  rw [hsort]
  intro hchain
  exact Nat.lt_irrefl 7 (List.chain'_cons.mp hchain).1

/-- The shared `CompiledMethodStorage` thunk table, keyed by the patch's
thunk signature (`LinkerPatch` type and target data); a key maps to the
registered thunk code bytes. -/
abbrev ThunkStorage := List (Nat × List Nat)

/-- `CompiledMethodStorage::GetThunkCode`: the stored code for a signature,
empty when nothing is registered. -/
def getThunkCode (storage : ThunkStorage) (key : Nat) : List Nat :=
  match storage.lookup key with
  | some code => code
  | none => []

/-- `CompiledMethodStorage::SetThunkCode`: register thunk code for a
signature. -/
def setThunkCode (storage : ThunkStorage) (key : Nat) (code : List Nat) : ThunkStorage :=
  (key, code) :: storage

/-- A patch as seen by the thunk loop of `Emit`: its thunk signature and the
result of `codegen->NeedsThunkCode(patch)`. -/
structure EmitPatch where
  thunkKey : Nat
  needsThunkCode : Bool
deriving DecidableEq

/-- The thunk loop of `Emit`: for every patch that needs thunk code and whose
signature has no stored code yet, emit the thunk (`emitThunkCode`, the
code-generator oracle) and register it.  Returns the updated storage and the
list of `SetThunkCode` registrations this call performed. -/
def emitThunks (emitThunkCode : Nat → List Nat) :
    List EmitPatch → ThunkStorage → ThunkStorage × List (Nat × List Nat)
  | [], storage => (storage, [])
  | p :: ps, storage =>
    if p.needsThunkCode && (getThunkCode storage p.thunkKey).isEmpty then
      let code := emitThunkCode p.thunkKey
      let rest := emitThunks emitThunkCode ps (setThunkCode storage p.thunkKey code)
      (rest.1, (p.thunkKey, code) :: rest.2)
    else
      emitThunks emitThunkCode ps storage

/-- The registrations for one signature among a list of registrations. -/
def thunkRegistrationsFor (key : Nat) (regs : List (Nat × List Nat)) : List (Nat × List Nat) :=
  regs.filter fun e => e.1 == key

theorem getThunkCode_set_self (storage : ThunkStorage) (key : Nat) (code : List Nat) :
    getThunkCode (setThunkCode storage key code) key = code := by
  simp [getThunkCode, setThunkCode, List.lookup]

theorem getThunkCode_set_ne (storage : ThunkStorage) (key key' : Nat) (code : List Nat)
    (h : key' ≠ key) :
    getThunkCode (setThunkCode storage key code) key' = getThunkCode storage key' := by
  simp [getThunkCode, setThunkCode, List.lookup, beq_false_of_ne h]

theorem emitThunks_registered (emitThunkCode : Nat → List Nat) (key : Nat) :
    ∀ (ps : List EmitPatch) (storage : ThunkStorage),
      getThunkCode storage key = emitThunkCode key → emitThunkCode key ≠ [] →
      thunkRegistrationsFor key (emitThunks emitThunkCode ps storage).2 = [] ∧
        getThunkCode (emitThunks emitThunkCode ps storage).1 key = emitThunkCode key := by
  intro ps
  induction ps with
  | nil =>
    intro storage hreg _
    exact ⟨rfl, hreg⟩
  | cons p ps ih =>
    intro storage hreg hne
    by_cases hkey : p.thunkKey = key
    · have hstored : (getThunkCode storage p.thunkKey).isEmpty = false := by
        rw [hkey, hreg]
        cases hc : emitThunkCode key with
        | nil => exact absurd hc hne
        | cons a l => simp
      rw [emitThunks, hstored]
      simp only [Bool.and_false, if_neg (Bool.false_ne_true)]
      exact ih storage hreg hne
    · rw [emitThunks]
      by_cases hcond : (p.needsThunkCode && (getThunkCode storage p.thunkKey).isEmpty) = true
      · rw [if_pos hcond]
        have hreg' : getThunkCode (setThunkCode storage p.thunkKey
            (emitThunkCode p.thunkKey)) key = emitThunkCode key := by
          rw [getThunkCode_set_ne storage p.thunkKey key _ (Ne.symm hkey)]
          exact hreg
        have hrest := ih (setThunkCode storage p.thunkKey (emitThunkCode p.thunkKey)) hreg' hne
        refine ⟨?_, hrest.2⟩
        simp only [thunkRegistrationsFor, List.filter_cons]
        rw [if_neg (by simp [hkey])]
        exact hrest.1
      · rw [if_neg hcond]
        exact ih storage hreg hne

theorem emitThunks_fresh (emitThunkCode : Nat → List Nat) (key : Nat) :
    ∀ (ps : List EmitPatch) (storage : ThunkStorage),
      getThunkCode storage key = [] → emitThunkCode key ≠ [] →
      (thunkRegistrationsFor key (emitThunks emitThunkCode ps storage).2 =
        if ps.any (fun p => p.needsThunkCode && p.thunkKey == key) then
          [(key, emitThunkCode key)] else []) ∧
        getThunkCode (emitThunks emitThunkCode ps storage).1 key =
          (if ps.any (fun p => p.needsThunkCode && p.thunkKey == key) then
            emitThunkCode key else []) := by
  intro ps
  induction ps with
  | nil =>
    intro storage hempty _
    exact ⟨rfl, hempty⟩
  | cons p ps ih =>
    intro storage hempty hne
    by_cases hkey : p.thunkKey = key
    · by_cases hneeds : p.needsThunkCode = true
      · have hcond : (p.needsThunkCode && (getThunkCode storage p.thunkKey).isEmpty) = true := by
          rw [hneeds, hkey, hempty]
          rfl
        rw [emitThunks, if_pos hcond]
        have hreg' : getThunkCode (setThunkCode storage p.thunkKey
            (emitThunkCode p.thunkKey)) key = emitThunkCode key := by
          rw [hkey, getThunkCode_set_self]
        have hrest := emitThunks_registered emitThunkCode key ps
          (setThunkCode storage p.thunkKey (emitThunkCode p.thunkKey)) hreg' hne
        have hany : ((p :: ps).any (fun p => p.needsThunkCode && p.thunkKey == key)) = true := by
          simp [List.any_cons, hneeds, hkey]
        refine ⟨?_, ?_⟩
        · rw [hany, if_pos rfl]
          simp only [thunkRegistrationsFor, List.filter_cons]
          rw [if_pos (by simp [hkey])]
          have := hrest.1
          rw [thunkRegistrationsFor] at this
          rw [this, hkey]
        · rw [hany, if_pos rfl]
          exact hrest.2
      · have hneeds' : p.needsThunkCode = false := by
          cases h : p.needsThunkCode with
          | true => exact absurd h hneeds
          | false => rfl
        rw [emitThunks]
        simp only [hneeds', Bool.false_and, if_neg (Bool.false_ne_true)]
        have hrest := ih storage hempty hne
        have hany : ((p :: ps).any (fun p => p.needsThunkCode && p.thunkKey == key)) =
            (ps.any (fun p => p.needsThunkCode && p.thunkKey == key)) := by
          simp [List.any_cons, hneeds']
        rw [hany]
        exact hrest
    · rw [emitThunks]
      have hany : ((p :: ps).any (fun p => p.needsThunkCode && p.thunkKey == key)) =
          (ps.any (fun p => p.needsThunkCode && p.thunkKey == key)) := by
        simp [List.any_cons, hkey]
      by_cases hcond : (p.needsThunkCode && (getThunkCode storage p.thunkKey).isEmpty) = true
      · rw [if_pos hcond]
        have hempty' : getThunkCode (setThunkCode storage p.thunkKey
            (emitThunkCode p.thunkKey)) key = [] := by
          rw [getThunkCode_set_ne storage p.thunkKey key _ (Ne.symm hkey)]
          exact hempty
        have hrest := ih (setThunkCode storage p.thunkKey (emitThunkCode p.thunkKey)) hempty' hne
        refine ⟨?_, by rw [hany]; exact hrest.2⟩
        simp only [thunkRegistrationsFor, List.filter_cons]
        rw [if_neg (by simp [hkey]), hany]
        exact hrest.1
      · rw [if_neg hcond, hany]
        exact ih storage hempty hne

/-- C9: the thunk loop of `Emit` registers a thunk only when no code is
stored for that signature yet; running it for two methods whose patch lists
both contain a patch needing a thunk with the same signature (starting from
storage with no code for that signature, with a non-empty emitted thunk)
performs exactly one registration for that signature, and the final shared
storage holds that single blob, referenced by both artifacts via the
signature. -/
theorem emit_thunk_dedup (emitThunkCode : Nat → List Nat) (storage0 : ThunkStorage)
    (ps1 ps2 : List EmitPatch) (key : Nat)
    (h0 : getThunkCode storage0 key = [])
    (hne : emitThunkCode key ≠ [])
    (h1 : ps1.any (fun p => p.needsThunkCode && p.thunkKey == key) = true)
    (h2 : ps2.any (fun p => p.needsThunkCode && p.thunkKey == key) = true) :
    thunkRegistrationsFor key ((emitThunks emitThunkCode ps1 storage0).2 ++
        (emitThunks emitThunkCode ps2 (emitThunks emitThunkCode ps1 storage0).1).2) =
      [(key, emitThunkCode key)] ∧
      getThunkCode (emitThunks emitThunkCode ps2
        (emitThunks emitThunkCode ps1 storage0).1).1 key = emitThunkCode key := by
  have hfirst := emitThunks_fresh emitThunkCode key ps1 storage0 h0 hne
  rw [h1, if_pos rfl, if_pos rfl] at hfirst
  have hsecond := emitThunks_registered emitThunkCode key ps2
    (emitThunks emitThunkCode ps1 storage0).1 hfirst.2 hne
  constructor
  · rw [thunkRegistrationsFor, List.filter_append]
    have e1 : (emitThunks emitThunkCode ps1 storage0).2.filter (fun e => e.1 == key) =
        [(key, emitThunkCode key)] := hfirst.1
    have e2 : (emitThunks emitThunkCode ps2
        (emitThunks emitThunkCode ps1 storage0).1).2.filter (fun e => e.1 == key) = [] :=
      hsecond.1
    rw [e1, e2]
    rfl
  · exact hsecond.2

/-- C9 witness: two methods each with one patch of signature 5 needing a
thunk, starting from empty storage: one registration, and the blob is
stored. -/
theorem emit_thunk_dedup_witness :
    thunkRegistrationsFor 5 ((emitThunks (fun _ => [1, 2]) [⟨5, true⟩] []).2 ++
        (emitThunks (fun _ => [1, 2]) [⟨5, true⟩]
          (emitThunks (fun _ => [1, 2]) [⟨5, true⟩] []).1).2) = [(5, [1, 2])] ∧
      getThunkCode (emitThunks (fun _ => [1, 2]) [⟨5, true⟩]
        (emitThunks (fun _ => [1, 2]) [⟨5, true⟩] []).1).1 5 = [1, 2] :=
  emit_thunk_dedup (fun _ => [1, 2]) [] [⟨5, true⟩] [⟨5, true⟩] 5
    (by decide) (by decide) (by decide) (by decide)

/-! ### Compilation orchestrator (`TryCompile`, `TryCompileIntrinsic`, `Compile`) -/

/-- Instruction sets; `riscv64` stands for the targets the optimizing
back-end does not support. -/
inductive InstructionSet
  | arm | arm64 | thumb2 | x86 | x86_64 | riscv64
deriving DecidableEq

/-- `IsInstructionSetSupported`. -/
def isInstructionSetSupported (instructionSet : InstructionSet) : Bool :=
  instructionSet == .arm || instructionSet == .arm64 || instructionSet == .thumb2
    || instructionSet == .x86 || instructionSet == .x86_64

/-- The compiler filters relevant to the driver (`CompilerFilter::Filter`). -/
inductive CompilerFilter
  | assumeVerified | extract | verify | spaceProfile | space
  | speedProfile | speed | everythingProfile | everything
deriving DecidableEq

/-- The per-method classification statistics the driver records
(`MethodCompilationStat`). -/
inductive MethodCompilationStat
  | attemptBytecodeCompilation
  | attemptIntrinsicCompilation
  | notCompiledUnsupportedIsa
  | notCompiledPathological
  | notCompiledSpaceFilter
  | notCompiledNoCodegen
  | notCompiledSkipped
  | notCompiledInvalidBytecode
  | notCompiledThrowCatchLoop
  | notCompiledAmbiguousArrayOp
  | notCompiledIrreducibleLoopAndStringInit
  | notCompiledPhiEquivalentInOsr
  | compiledBytecode
  | compiledIntrinsic
  | compiledNativeStub
  | jitOutOfMemoryForCommit
deriving DecidableEq

/-- Result of `HGraphBuilder::BuildGraph` (`GraphAnalysisResult`). -/
inductive GraphAnalysisResult
  | success
  | skipped
  | invalidBytecode
  | failThrowCatchLoop
  | failAmbiguousArrayOp
  | failIrreducibleLoopAndStringInit
  | failPhiEquivalentInOsr
deriving DecidableEq

/-- The statistic `TryCompile` records for each `BuildGraph` failure case
(the `switch` on `GraphAnalysisResult`; `success` never reaches it). -/
def buildFailureStat : GraphAnalysisResult → MethodCompilationStat
  | .success => .compiledBytecode
  | .skipped => .notCompiledSkipped
  | .invalidBytecode => .notCompiledInvalidBytecode
  | .failThrowCatchLoop => .notCompiledThrowCatchLoop
  | .failAmbiguousArrayOp => .notCompiledAmbiguousArrayOp
  | .failIrreducibleLoopAndStringInit => .notCompiledIrreducibleLoopAndStringInit
  | .failPhiEquivalentInOsr => .notCompiledPhiEquivalentInOsr

/-- Pipeline milestones observable during `TryCompile`, in program order:
IR-graph allocation, the builder pass, the optimization passes, register
allocation, and code generation. -/
inductive CompileEvent
  | graphConstructed
  | builderRun
  | optimizationPassesRun
  | registersAllocated
  | codeGenerated
deriving DecidableEq

/-- Outcome of `TryCompile`: the returned code generator (`none` = not
compiled), the statistics recorded, and the pipeline milestones reached. -/
structure TryCompileOutcome where
  codegen : Option Unit
  stats : List MethodCompilationStat
  events : List CompileEvent
deriving DecidableEq

/-- Inputs of one `TryCompile` run: the configuration read by the driver and
the oracle results of its external collaborators (pathological-case
heuristic, code-generator creation, graph building). -/
structure TryCompileInput where
  instructionSet : InstructionSet
  compilerFilter : CompilerFilter
  isPathologicalCase : Bool
  insnsSizeInCodeUnits : Nat
  codegenCreated : Bool
  buildResult : GraphAnalysisResult
deriving DecidableEq

/-- The space-filter threshold of `TryCompile`
(`kSpaceFilterOptimizingThreshold`). -/
def kSpaceFilterOptimizingThreshold : Nat := 128

/-- `OptimizingCompiler::TryCompile`: the ordered eligibility checks
(unsupported ISA, pathological case, space filter), then graph construction,
code-generator creation, graph building, the optimization passes, register
allocation and code generation. -/
def tryCompile (inp : TryCompileInput) : TryCompileOutcome :=
  if ¬ isInstructionSetSupported inp.instructionSet then
    { codegen := none
      stats := [.attemptBytecodeCompilation, .notCompiledUnsupportedIsa]
      events := [] }
  else if inp.isPathologicalCase then
    { codegen := none
      stats := [.attemptBytecodeCompilation, .notCompiledPathological]
      events := [] }
  else if inp.compilerFilter == .space
      && decide (inp.insnsSizeInCodeUnits > kSpaceFilterOptimizingThreshold) then
    { codegen := none
      stats := [.attemptBytecodeCompilation, .notCompiledSpaceFilter]
      events := [] }
  else if ¬ inp.codegenCreated then
    { codegen := none
      stats := [.attemptBytecodeCompilation, .notCompiledNoCodegen]
      events := [.graphConstructed] }
  else if inp.buildResult ≠ .success then
    { codegen := none
      stats := [.attemptBytecodeCompilation, buildFailureStat inp.buildResult]
      events := [.graphConstructed, .builderRun] }
  else
    { codegen := some ()
      stats := [.attemptBytecodeCompilation, .compiledBytecode]
      events := [.graphConstructed, .builderRun, .optimizationPassesRun,
                 .registersAllocated, .codeGenerated] }

/-- C5: under `CompilerFilter::kSpace`, a method whose bytecode size in code
units is at least 129 (`T + 1` with `T = 128`) is rejected with the
space-filter statistic, and a method of size exactly 128 is never rejected
on this criterion. -/
theorem tryCompile_spaceFilter (inp : TryCompileInput)
    (hisa : isInstructionSetSupported inp.instructionSet = true)
    (hpath : inp.isPathologicalCase = false)
    (hfilter : inp.compilerFilter = .space) :
    (kSpaceFilterOptimizingThreshold + 1 ≤ inp.insnsSizeInCodeUnits →
      (tryCompile inp).codegen = none ∧
        MethodCompilationStat.notCompiledSpaceFilter ∈ (tryCompile inp).stats) ∧
      (inp.insnsSizeInCodeUnits = kSpaceFilterOptimizingThreshold →
        MethodCompilationStat.notCompiledSpaceFilter ∉ (tryCompile inp).stats) := by
  constructor
  · intro hsize
    have hgt : inp.insnsSizeInCodeUnits > kSpaceFilterOptimizingThreshold := hsize
    simp [tryCompile, hisa, hpath, hfilter, hgt]
  · intro hsize
    have hgt : ¬ (inp.insnsSizeInCodeUnits > kSpaceFilterOptimizingThreshold) := by omega
    cases hcg : inp.codegenCreated <;> cases hbr : inp.buildResult <;>
      simp [tryCompile, hisa, hpath, hfilter, hgt, hcg, hbr, buildFailureStat]

/-- C5 witness: with a supported ISA, non-pathological method, space filter
and size 129, the method is rejected with the space-filter statistic. -/
theorem tryCompile_spaceFilter_witness :
    (tryCompile ⟨.arm64, .space, false, 129, true, .success⟩).codegen = none ∧
      MethodCompilationStat.notCompiledSpaceFilter ∈
        (tryCompile ⟨.arm64, .space, false, 129, true, .success⟩).stats :=
  (tryCompile_spaceFilter ⟨.arm64, .space, false, 129, true, .success⟩
    (by decide) rfl rfl).1 (by decide)

/-- C6: a method classified pathological by the structural heuristic is
rejected by `TryCompile` with exactly the pathological statistic recorded
(no exception: the result is the null "not compiled" value), before the IR
graph is constructed and before any optimization pass runs. -/
theorem tryCompile_pathological (inp : TryCompileInput)
    (hisa : isInstructionSetSupported inp.instructionSet = true)
    (hpath : inp.isPathologicalCase = true) :
    (tryCompile inp).codegen = none ∧
      (tryCompile inp).stats =
        [.attemptBytecodeCompilation, .notCompiledPathological] ∧
      CompileEvent.graphConstructed ∉ (tryCompile inp).events ∧
      CompileEvent.optimizationPassesRun ∉ (tryCompile inp).events := by
  simp [tryCompile, hisa, hpath]

/-- C6 witness: a pathological method on a supported ISA is rejected before
graph construction and before any pass. -/
theorem tryCompile_pathological_witness :
    (tryCompile ⟨.x86_64, .speed, true, 10, true, .success⟩).codegen = none ∧
      (tryCompile ⟨.x86_64, .speed, true, 10, true, .success⟩).stats =
        [.attemptBytecodeCompilation, .notCompiledPathological] ∧
      CompileEvent.graphConstructed ∉
        (tryCompile ⟨.x86_64, .speed, true, 10, true, .success⟩).events ∧
      CompileEvent.optimizationPassesRun ∉
        (tryCompile ⟨.x86_64, .speed, true, 10, true, .success⟩).events :=
  tryCompile_pathological ⟨.x86_64, .speed, true, 10, true, .success⟩ (by decide) rfl

/-- Inputs of `TryCompileIntrinsic`: the target and the oracle results of
code-generator creation and of `codegen->IsLeafMethod()` after register
allocation. -/
structure TryCompileIntrinsicInput where
  instructionSet : InstructionSet
  codegenCreated : Bool
  isLeafMethod : Bool
deriving DecidableEq

/-- `OptimizingCompiler::TryCompileIntrinsic`: returns the code generator
only when the target is supported, the code generator was created, and the
generated code is a leaf method after register allocation. -/
def tryCompileIntrinsic (inp : TryCompileIntrinsicInput) :
    Option Unit × List MethodCompilationStat :=
  if ¬ isInstructionSetSupported inp.instructionSet then
    (none, [.attemptIntrinsicCompilation])
  else if ¬ inp.codegenCreated then
    (none, [.attemptIntrinsicCompilation])
  else if ¬ inp.isLeafMethod then
    (none, [.attemptIntrinsicCompilation])
  else
    (some (), [.attemptIntrinsicCompilation, .compiledIntrinsic])

/-- The compiled-method artifact as produced by `Compile`: which pipeline
produced it and whether `MarkAsIntrinsic` was called on it. -/
structure CompiledMethodModel where
  producedByGeneralPipeline : Bool
  markedIntrinsic : Bool
deriving DecidableEq

/-- `OptimizingCompiler::Compile` (AOT): attempt the intrinsic fast path for
recognized intrinsics; when it yields no code generator, fall through to the
general `TryCompile` path; mark the artifact as intrinsic only when the
intrinsic attempt itself succeeded. -/
def compileAot (methodIsIntrinsic : Bool) (intrinsicInput : TryCompileIntrinsicInput)
    (generalInput : TryCompileInput) : Option CompiledMethodModel :=
  let intrinsicCodegen :=
    if methodIsIntrinsic then (tryCompileIntrinsic intrinsicInput).1 else none
  match intrinsicCodegen with
  | some _ => some { producedByGeneralPipeline := false, markedIntrinsic := true }
  | none =>
    match (tryCompile generalInput).codegen with
    | some _ => some { producedByGeneralPipeline := true, markedIntrinsic := false }
    | none => none

/-- C7: when the intrinsic attempt's code generator is not a leaf method
after register allocation, `TryCompileIntrinsic` returns null, and `Compile`
falls through to the general pipeline: the resulting artifact comes from the
general path and is not marked as intrinsic. -/
theorem compile_intrinsicNonLeaf_fallsThrough (intrinsicInput : TryCompileIntrinsicInput)
    (generalInput : TryCompileInput)
    (hleaf : intrinsicInput.isLeafMethod = false)
    (hgen : (tryCompile generalInput).codegen = some ()) :
    (tryCompileIntrinsic intrinsicInput).1 = none ∧
      compileAot true intrinsicInput generalInput =
        some { producedByGeneralPipeline := true, markedIntrinsic := false } := by
  have hnone : (tryCompileIntrinsic intrinsicInput).1 = none := by
    cases hisa : isInstructionSetSupported intrinsicInput.instructionSet <;>
      cases hcg : intrinsicInput.codegenCreated <;>
        simp [tryCompileIntrinsic, hisa, hcg, hleaf]
  exact ⟨hnone, by simp [compileAot, hnone, hgen]⟩

/-- C7 witness: a non-leaf intrinsic attempt on arm64 falls through to a
successful general compile, producing a non-intrinsic artifact. -/
theorem compile_intrinsicNonLeaf_fallsThrough_witness :
    (tryCompileIntrinsic ⟨.arm64, true, false⟩).1 = none ∧
      compileAot true ⟨.arm64, true, false⟩ ⟨.arm64, .speed, false, 10, true, .success⟩ =
        some { producedByGeneralPipeline := true, markedIntrinsic := false } :=
  compile_intrinsicNonLeaf_fallsThrough ⟨.arm64, true, false⟩
    ⟨.arm64, .speed, false, 10, true, .success⟩ rfl (by decide)

/-! ### Verbosity filter (`PassObserver::IsVerboseMethod`) -/

/-- `needle` is an initial segment of `haystack` (one position of the
`strstr` scan). -/
def isLeading : List Char → List Char → Bool
  | [], _ => true
  | _ :: _, [] => false
  | a :: as, b :: bs => a == b && isLeading as bs

/-- The `strstr(haystack, needle) != nullptr` test: does `needle` occur as a
contiguous substring of `haystack`. -/
def occursIn (needle : List Char) : List Char → Bool
  | [] => isLeading needle []
  | b :: t => isLeading needle (b :: t) || occursIn needle t

/-- `needle` occurs contiguously within `haystack` (specification of
`strstr` success). -/
def OccursWithin (needle haystack : List Char) : Prop :=
  ∃ pre post, haystack = pre ++ (needle ++ post)

theorem isLeading_iff (needle : List Char) : ∀ haystack : List Char,
    isLeading needle haystack = true ↔ ∃ post, haystack = needle ++ post := by
  induction needle with
  | nil =>
    intro haystack
    simp [isLeading]
  | cons a as ih =>
    intro haystack
    cases haystack with
    | nil =>
      simp [isLeading]
    | cons b bs =>
      rw [isLeading, Bool.and_eq_true, beq_iff_eq, ih bs]
      constructor
      · rintro ⟨hab, post, hpost⟩
        exact ⟨post, by rw [hab, hpost]; rfl⟩
      · rintro ⟨post, hpost⟩
        rw [List.cons_append] at hpost
        exact ⟨((List.cons.injEq _ _ _ _).mp hpost |>.1).symm,
          post, (List.cons.injEq _ _ _ _).mp hpost |>.2⟩

theorem occursIn_iff (needle : List Char) : ∀ haystack : List Char,
    occursIn needle haystack = true ↔ OccursWithin needle haystack := by
  intro haystack
  induction haystack with
  | nil =>
    rw [occursIn, isLeading_iff]
    constructor
    · rintro ⟨post, hpost⟩
      exact ⟨[], post, hpost⟩
    · rintro ⟨pre, post, hpost⟩
      cases pre with
      | nil => exact ⟨post, hpost⟩
      | cons c cs => simp at hpost
  | cons b t ih =>
    rw [occursIn, Bool.or_eq_true, isLeading_iff, ih]
    constructor
    · rintro (⟨post, hpost⟩ | ⟨pre, post, hpost⟩)
      · exact ⟨[], post, hpost⟩
      · exact ⟨b :: pre, post, by rw [List.cons_append, hpost]⟩
    · rintro ⟨pre, post, hpost⟩
      cases pre with
      | nil =>
        exact Or.inl ⟨post, hpost⟩
      | cons c cs =>
        rw [List.cons_append] at hpost
        have hcs := (List.cons.injEq _ _ _ _).mp hpost |>.2
        exact Or.inr ⟨cs, post, hcs⟩

/-- The compiled-in visualizer filter (`kStringFilter`), empty in this
source tree. -/
def kStringFilter : String := ""

/-- `PassObserver::IsVerboseMethod`, parameterized by the compiled-in filter
string.  `verboseMethods` models `--verbose-methods`: `some allowList` when
`HasVerboseMethods()`, in which case `CompilerOptions::IsVerboseMethod` is
used.  Modelled from the spec: `CompilerOptions::IsVerboseMethod` (declared
outside this source file) is an exact-match test of the method name against
the configured allow-list. -/
def isVerboseMethodWithFilter (verboseMethods : Option (List String))
    (filter : String) (methodName : String) : Bool :=
  match verboseMethods with
  | some allowList => decide (methodName ∈ allowList)
  | none =>
    if filter.isEmpty || occursIn filter.data methodName.data then true
    else false

/-- `PassObserver::IsVerboseMethod` with the compiled-in `kStringFilter`. -/
def isVerboseMethod (verboseMethods : Option (List String)) (methodName : String) : Bool :=
  isVerboseMethodWithFilter verboseMethods kStringFilter methodName

/-- C8: with a configured `--verbose-methods` allow-list the predicate is an
exact-match test against it; without one it is a substring test of the
compiled-in filter string within the method name, where an empty filter
(and in particular the compiled-in empty `kStringFilter`) matches every
method name. -/
theorem isVerboseMethod_spec (verboseMethods : Option (List String))
    (filter methodName : String) :
    (∀ allowList, verboseMethods = some allowList →
      (isVerboseMethodWithFilter verboseMethods filter methodName = true ↔
        methodName ∈ allowList)) ∧
      (verboseMethods = none →
        (isVerboseMethodWithFilter verboseMethods filter methodName = true ↔
          (filter = "" ∨ OccursWithin filter.data methodName.data))) ∧
      (verboseMethods = none → isVerboseMethod verboseMethods methodName = true) := by
  refine ⟨?_, ?_, ?_⟩
  · rintro allowList rfl
    simp [isVerboseMethodWithFilter]
  · rintro rfl
    have hif : isVerboseMethodWithFilter none filter methodName =
        (filter.isEmpty || occursIn filter.data methodName.data) := by
      rw [isVerboseMethodWithFilter]
      cases hcond : (filter.isEmpty || occursIn filter.data methodName.data) <;> simp [hcond]
    rw [hif, Bool.or_eq_true, String.isEmpty_iff, occursIn_iff]
  · rintro rfl
    rfl

/-- C8 witness: a configured allow-list is matched exactly, and with no
allow-list the compiled-in empty filter matches every method name. -/
theorem isVerboseMethod_spec_witness :
    (isVerboseMethodWithFilter (some ["foo"]) "x" "foo" = true ↔ "foo" ∈ ["foo"]) ∧
      isVerboseMethod none "bar" = true :=
  ⟨(isVerboseMethod_spec (some ["foo"]) "x" "foo").1 ["foo"] rfl,
    (isVerboseMethod_spec none "x" "bar").2.2 rfl⟩

/-! ### JNI compilation (`JniCompile`, `CreateJniStackMap`) -/

/-- The result of `ArtQuickJniCompileMethod`: the generic JNI stub produced
by the externally implemented JNI compiler. -/
structure JniCompiledMethod where
  instructionSet : InstructionSet
  frameSize : Nat
  coreSpillMask : Nat
  fpSpillMask : Nat
  code : List Nat
  cfi : List Nat
deriving DecidableEq

/-- The contents a `StackMapStream` encodes for a JNI stub: the
`BeginMethod`/`EndMethod` arguments of `CreateJniStackMap`. -/
structure JniStackMap where
  frameSize : Nat
  coreSpillMask : Nat
  fpSpillMask : Nat
  numDexRegisters : Nat
  baseline : Bool
  debuggable : Bool
  codeSize : Nat
deriving DecidableEq

/-- `CreateJniStackMap`: the minimal JNI stack map, built with zero dex
registers and `baseline = false`. -/
def createJniStackMap (jni : JniCompiledMethod) (codeSize : Nat) (debuggable : Bool) :
    JniStackMap :=
  { frameSize := jni.frameSize
    coreSpillMask := jni.coreSpillMask
    fpSpillMask := jni.fpSpillMask
    numDexRegisters := 0
    baseline := false
    debuggable := debuggable
    codeSize := codeSize }

/-- Where an artifact's stack-map bytes come from: the code generator's
`BuildStackMaps` (opaque), or a minimal JNI stack map. -/
inductive StackMapBytes
  | fromCodegen
  | jniMinimal (stackMap : JniStackMap)
deriving DecidableEq

/-- A compiled-method artifact as packaged by
`CompiledMethod::SwapAllocCompiledMethod`. -/
structure CompiledMethodArtifact where
  instructionSet : InstructionSet
  code : List Nat
  stackMap : StackMapBytes
  cfi : List Nat
  patches : List LinkerPatch
  markedIntrinsic : Bool
deriving DecidableEq

/-- Inputs of one `JniCompile` run: the configuration checks guarding the
intrinsic fast path, the intrinsic attempt's oracle inputs and would-be
artifact contents, and the generic JNI stub produced by
`ArtQuickJniCompileMethod`. -/
structure JniCompileInput where
  isBootImage : Bool
  methodIsIntrinsicNonPolymorphic : Bool
  intrinsicInput : TryCompileIntrinsicInput
  intrinsicCode : List Nat
  intrinsicCfi : List Nat
  intrinsicEmittedPatches : List LinkerPatch
  jniCompiledMethod : JniCompiledMethod
  debuggable : Bool
  isJitCompiler : Bool
deriving DecidableEq

/-- `OptimizingCompiler::JniCompile`: for boot-image intrinsics (excluding
signature-polymorphic methods) try the fully intrinsified fast path and, on
success, return the `Emit`-packaged artifact marked as intrinsic; otherwise
fall through to the generic JNI stub with a minimal JNI stack map and no
relocation patches. -/
def jniCompile (inp : JniCompileInput) : CompiledMethodArtifact :=
  if inp.isBootImage && inp.methodIsIntrinsicNonPolymorphic
      && (tryCompileIntrinsic inp.intrinsicInput).1.isSome then
    { instructionSet := inp.intrinsicInput.instructionSet
      code := inp.intrinsicCode
      stackMap := .fromCodegen
      cfi := inp.intrinsicCfi
      patches := emitAndSortLinkerPatches inp.intrinsicEmittedPatches
      markedIntrinsic := true }
  else
    { instructionSet := inp.jniCompiledMethod.instructionSet
      code := inp.jniCompiledMethod.code
      stackMap := .jniMinimal (createJniStackMap inp.jniCompiledMethod
        inp.jniCompiledMethod.code.length (inp.debuggable && inp.isJitCompiler))
      cfi := inp.jniCompiledMethod.cfi
      patches := []
      markedIntrinsic := false }

/-- C10: an artifact produced by `JniCompile` through the generic JNI-stub
path has an empty relocation-patch list, and its stack map is the minimal
JNI stack map of `CreateJniStackMap`, built with zero dex registers (and not
as a baseline method). -/
theorem jniCompile_genericPath (inp : JniCompileInput)
    (hpath : (inp.isBootImage && inp.methodIsIntrinsicNonPolymorphic
      && (tryCompileIntrinsic inp.intrinsicInput).1.isSome) = false) :
    (jniCompile inp).patches = [] ∧
      (jniCompile inp).stackMap =
        StackMapBytes.jniMinimal (createJniStackMap inp.jniCompiledMethod
          inp.jniCompiledMethod.code.length (inp.debuggable && inp.isJitCompiler)) ∧
      ∀ stackMap, (jniCompile inp).stackMap = StackMapBytes.jniMinimal stackMap →
        stackMap.numDexRegisters = 0 ∧ stackMap.baseline = false := by
  rw [jniCompile, if_neg (by simp [hpath])]
  refine ⟨rfl, rfl, ?_⟩
  intro stackMap hsm
  cases (StackMapBytes.jniMinimal.injEq _ _).mp hsm
  exact ⟨rfl, rfl⟩

/-- C10 witness: a non-boot-image JNI compile takes the generic path, with
empty patches and the zero-dex-register minimal stack map. -/
theorem jniCompile_genericPath_witness :
    (jniCompile ⟨false, false, ⟨.arm64, true, true⟩, [], [], [],
        ⟨.arm64, 64, 3, 0, [9, 9], [4]⟩, false, true⟩).patches = [] ∧
      (jniCompile ⟨false, false, ⟨.arm64, true, true⟩, [], [], [],
          ⟨.arm64, 64, 3, 0, [9, 9], [4]⟩, false, true⟩).stackMap =
        StackMapBytes.jniMinimal (createJniStackMap ⟨.arm64, 64, 3, 0, [9, 9], [4]⟩ 2 false) ∧
      ∀ stackMap,
        (jniCompile ⟨false, false, ⟨.arm64, true, true⟩, [], [], [],
            ⟨.arm64, 64, 3, 0, [9, 9], [4]⟩, false, true⟩).stackMap =
          StackMapBytes.jniMinimal stackMap →
        stackMap.numDexRegisters = 0 ∧ stackMap.baseline = false :=
  jniCompile_genericPath ⟨false, false, ⟨.arm64, true, true⟩, [], [], [],
    ⟨.arm64, 64, 3, 0, [9, 9], [4]⟩, false, true⟩ rfl

/-! ### JIT commit protocol (`JitCompile`) -/

/-- Code-cache interactions observable during `JitCompile`, with the
reserved extents identified abstractly.  A successful `Commit` is the point
at which the method's entry point may be published. -/
inductive JitEvent
  | reserve (codeExtent dataExtent : Nat)
  | commitSucceeded (codeExtent dataExtent : Nat)
  | commitFailed (codeExtent dataExtent : Nat)
  | free (codeExtent dataExtent : Nat)
deriving DecidableEq

/-- Oracle for the JIT code cache: the result of `Reserve` (the two reserved
extents, or `none` when the cache is full) and whether `Commit` succeeds. -/
structure JitCacheOracle where
  reserveResult : Option (Nat × Nat)
  commitOk : Bool
deriving DecidableEq

/-- The native-method path of `JitCompile`: early-out for critical native
methods in debuggable runtimes, then Reserve, Fill and Commit of the JNI
stub, freeing the reservation when Commit fails. -/
def jitCompileNativePath (oracle : JitCacheOracle) (debuggableCriticalNative : Bool) :
    Bool × List JitEvent :=
  if debuggableCriticalNative then (false, [])
  else
    match oracle.reserveResult with
    | none => (false, [])
    | some (codeExtent, dataExtent) =>
      if oracle.commitOk then
        (true, [.reserve codeExtent dataExtent, .commitSucceeded codeExtent dataExtent])
      else
        (false, [.reserve codeExtent dataExtent, .commitFailed codeExtent dataExtent,
                 .free codeExtent dataExtent])

/-- The bytecode path of `JitCompile`: `TryCompile`, then Reserve, Fill and
Commit of the generated code, freeing the reservation when Commit fails. -/
def jitCompileBytecodePath (oracle : JitCacheOracle) (tryCompileSucceeded : Bool) :
    Bool × List JitEvent :=
  if ¬ tryCompileSucceeded then (false, [])
  else
    match oracle.reserveResult with
    | none => (false, [])
    | some (codeExtent, dataExtent) =>
      if oracle.commitOk then
        (true, [.reserve codeExtent dataExtent, .commitSucceeded codeExtent dataExtent])
      else
        (false, [.reserve codeExtent dataExtent, .commitFailed codeExtent dataExtent,
                 .free codeExtent dataExtent])

/-- `OptimizingCompiler::JitCompile`: dispatch between the native-method
path and the general bytecode path. -/
def jitCompile (isNative debuggableCriticalNative tryCompileSucceeded : Bool)
    (oracle : JitCacheOracle) : Bool × List JitEvent :=
  if isNative then jitCompileNativePath oracle debuggableCriticalNative
  else jitCompileBytecodePath oracle tryCompileSucceeded

/-- The `Free` calls within a trace. -/
def freeEvents (events : List JitEvent) : List JitEvent :=
  events.filter fun e =>
    match e with
    | .free _ _ => true
    | _ => false

/-- Whether the trace contains a successful `Commit`, the only point where
the method's entry point is published. -/
def entryPointPublished (events : List JitEvent) : Bool :=
  events.any fun e =>
    match e with
    | .commitSucceeded _ _ => true
    | _ => false

/-- C1: on either `JitCompile` path, when `Reserve` succeeds (the trace
contains the reserve event for the reserved extents) and `Commit` fails, the
compile returns `false`, calls `Free` exactly once with the same reserved
extents, and never publishes the method's entry point. -/
theorem jitCompile_commitFail_frees
    (isNative debuggableCriticalNative tryCompileSucceeded : Bool)
    (oracle : JitCacheOracle) (codeExtent dataExtent : Nat)
    (hres : oracle.reserveResult = some (codeExtent, dataExtent))
    (hcommit : oracle.commitOk = false)
    (hreserved : JitEvent.reserve codeExtent dataExtent ∈
      (jitCompile isNative debuggableCriticalNative tryCompileSucceeded oracle).2) :
    (jitCompile isNative debuggableCriticalNative tryCompileSucceeded oracle).1 = false ∧
      freeEvents (jitCompile isNative debuggableCriticalNative tryCompileSucceeded oracle).2 =
        [JitEvent.free codeExtent dataExtent] ∧
      entryPointPublished
        (jitCompile isNative debuggableCriticalNative tryCompileSucceeded oracle).2 = false := by
  cases isNative <;> cases debuggableCriticalNative <;> cases tryCompileSucceeded <;>
    simp_all [jitCompile, jitCompileNativePath, jitCompileBytecodePath,
      freeEvents, entryPointPublished]

/-- C1 witness: a bytecode-path JIT compile with a successful `Reserve` of
extents `(3, 4)` and a failing `Commit` frees exactly those extents, returns
`false`, and publishes no entry point. -/
theorem jitCompile_commitFail_frees_witness :
    (jitCompile false false true ⟨some (3, 4), false⟩).1 = false ∧
      freeEvents (jitCompile false false true ⟨some (3, 4), false⟩).2 =
        [JitEvent.free 3 4] ∧
      entryPointPublished (jitCompile false false true ⟨some (3, 4), false⟩).2 = false :=
  jitCompile_commitFail_frees false false true ⟨some (3, 4), false⟩ 3 4 rfl rfl (by decide)

end Art
